import Mathlib

/-!
Shallow embedding of the tic-tac-toe core of src/src/tictactoe.py.

A board cell is Option Bool: none is Empty, some true is X, some false is O.
The board value mirrors the Python namedtuple
TicTacToeBoard(tup, turn, winner, terminal, rand).
-/

namespace TTT

structure TicTacToeBoard where
  tup : List (Option Bool)
  turn : Bool
  winner : Option Bool
  terminal : Bool
  rand : Bool
deriving DecidableEq, Repr

/-- The generator _winning_combos: three rows, three columns, two diagonals,
in the order the Python generator yields them. -/
def _winning_combos : List (Nat × Nat × Nat) :=
  [(0, 1, 2), (3, 4, 5), (6, 7, 8), (0, 3, 6), (1, 4, 7), (2, 5, 8), (0, 4, 8), (2, 4, 6)]

/-- The loop body of _find_winner over a list of combos: for each triple,
first test three O marks, then three X marks, else continue. -/
def _find_winner_aux (tup : List (Option Bool)) : List (Nat × Nat × Nat) → Option Bool
  | [] => none
  | (i1, i2, i3) :: rest =>
    let v1 := tup.getD i1 none
    let v2 := tup.getD i2 none
    let v3 := tup.getD i3 none
    if v1 = some false ∧ v2 = some false ∧ v3 = some false then some false
    else if v1 = some true ∧ v2 = some true ∧ v3 = some true then some true
    else _find_winner_aux tup rest

/-- _find_winner: none if no winner, some true if X wins, some false if O wins. -/
def _find_winner (tup : List (Option Bool)) : Option Bool :=
  _find_winner_aux tup _winning_combos

/-- make_move: place the mover mark at index via tuple slicing, flip turn,
recompute winner and terminal, carry the rand flag. -/
def TicTacToeBoard.make_move (board : TicTacToeBoard) (index : Nat) (rand : Bool) :
    TicTacToeBoard :=
  let tup := board.tup.take index ++ [some board.turn] ++ board.tup.drop (index + 1)
  let turn := !board.turn
  let winner := _find_winner tup
  let is_terminal := winner.isSome || !(tup.any (fun v => v.isNone))
  ⟨tup, turn, winner, is_terminal, rand⟩

/-- The indices of the Empty cells, as enumerate over the tuple produces them. -/
def TicTacToeBoard.emptyIndices (board : TicTacToeBoard) : List Nat :=
  (List.range board.tup.length).filter (fun i => board.tup.getD i none = none)

/-- find_children: the empty set on a terminal board, otherwise the set of
boards obtained by make_move on each Empty index (rand defaults to false). -/
def TicTacToeBoard.find_children (board : TicTacToeBoard) : Finset TicTacToeBoard :=
  if board.terminal then ∅
  else (board.emptyIndices.map (fun i => board.make_move i false)).toFinset

/-- is_terminal accessor. -/
def TicTacToeBoard.is_terminal (board : TicTacToeBoard) : Bool :=
  board.terminal

/-- Result of reward: a returned value or a raised RuntimeError. -/
inductive RewardResult where
  | ok (v : Int)
  | err (msg : String)
deriving DecidableEq, Repr

/-- Python "not" applied to a cell/winner value: not None = True, not True =
False, not False = True. -/
def pyNot : Option Bool → Bool
  | none => true
  | some b => !b

/-- reward, branch for branch as in the source: raise on a nonterminal
board; raise when winner is the player to move; return -1 when the player
to move equals (not winner) in the Python sense; return 0 when winner is
unset; otherwise raise on an unknown winner type. -/
def TicTacToeBoard.reward (board : TicTacToeBoard) : RewardResult :=
  if board.terminal = false then
    RewardResult.err ("reward called on nonterminal board")
  else if board.winner = some board.turn then
    RewardResult.err ("reward called on unreachable board")
  else if board.turn = pyNot board.winner then
    RewardResult.ok (-1)
  else if board.winner = none then
    RewardResult.ok 0
  else
    RewardResult.err ("board has unknown winner type")

/-- new_tic_tac_toe_board: the root state. -/
def new_tic_tac_toe_board : TicTacToeBoard :=
  ⟨List.replicate 9 none, true, none, false, false⟩

/-- The cell encoding used when play_game logs a state snapshot:
Empty to "0", X to "1", O to "-1". -/
def cellCode : Option Bool → String
  | none => "0"
  | some true => "1"
  | some false => "-1"

/-- The logged State entry: the cell codes of the whole tuple. -/
def stateCodes (tup : List (Option Bool)) : List String :=
  tup.map cellCode

/-- The logged Turn entry: "1" for X, "-1" for O, "0" otherwise. -/
def turnCode (t : Bool) : String :=
  if t = true then "1" else if t = false then "-1" else "0"

/-- The indices in range 9 at which two boards differ, as the action-logging
loop of play_game scans them. -/
def diffIndices (board newBoard : TicTacToeBoard) : List Nat :=
  (List.range 9).filter (fun i => ¬ board.tup.getD i none = newBoard.tup.getD i none)

/-- The three parallel sequences of the recorded dataset. -/
structure SelfPlayData where
  State : List (List String)
  Turn : List String
  Action : List Nat
deriving DecidableEq, Repr

/-- One iteration of the logging part of play_game: when the chosen board has
rand = false, append the snapshot of the prior board, the mover code and
every differing index; otherwise log nothing. -/
def logStep (d : SelfPlayData) (board newBoard : TicTacToeBoard) : SelfPlayData :=
  if newBoard.rand then d
  else
    ⟨d.State ++ [stateCodes board.tup],
     d.Turn ++ [turnCode board.turn],
     d.Action ++ diffIndices board newBoard⟩

/-- Modelled from the spec: the external search engine (mcts.py, absent from
src/) returns via select_move one element of enumerate_moves, and its random
fallback (find_random_child) returns make_move at an Empty index with the
rand flag true; so a chosen successor is make_move at an Empty index with
some rand flag. -/
def isChildOf (c board : TicTacToeBoard) : Prop :=
  ∃ i r, i ∈ board.emptyIndices ∧ c = board.make_move i r

/-- Modelled from the spec: decoding a dataset cell code back to a cell,
"1" to X, "-1" to O, anything else ("0") to Empty. -/
def decodeCell (s : String) : Option Bool :=
  if s = "1" then some true else if s = "-1" then some false else none

/-- Modelled from the spec: decoding a dataset Turn code back to the mover,
"1" to X, otherwise O. -/
def decodeTurn (s : String) : Bool :=
  if s = "1" then true else false

/-- Modelled from the spec: rebuilding a BoardState from a logged snapshot
and mover code; winner, terminal and rand play no role in applying a move. -/
def decodeBoard (state : List String) (turn : String) : TicTacToeBoard :=
  ⟨state.map decodeCell, decodeTurn turn, none, false, false⟩

/-- The states reachable from the root through find_children. -/
inductive Reachable : TicTacToeBoard → Prop
  | root : Reachable new_tic_tac_toe_board
  | step {b c : TicTacToeBoard} : Reachable b → c ∈ b.find_children → Reachable c

/-- A concrete self-play line: place at index n at step n while n < 7, then
stay put; X completes the 2-4-6 diagonal at step 7. -/
def demoBoard : Nat → TicTacToeBoard
  | 0 => new_tic_tac_toe_board
  | n + 1 => if n < 7 then (demoBoard n).make_move n false else demoBoard n

/-- Number of Empty cells of a tuple. -/
def countEmpty (tup : List (Option Bool)) : Nat :=
  (tup.filter (fun v => v = none)).length

/-- A winning line of the given player: the three indexed cells all carry
the mark of that player. -/
def lineFilled (tup : List (Option Bool)) (c : Nat × Nat × Nat) (p : Bool) : Prop :=
  tup.getD c.1 none = some p ∧ tup.getD c.2.1 none = some p ∧ tup.getD c.2.2 none = some p

instance lineFilledDecidable (tup : List (Option Bool)) (c : Nat × Nat × Nat) (p : Bool) :
    Decidable (lineFilled tup c p) :=
  decidable_of_iff
    (tup.getD c.1 none = some p ∧ tup.getD c.2.1 none = some p ∧
      tup.getD c.2.2 none = some p) Iff.rfl

theorem make_move_tup {b : TicTacToeBoard} {i : Nat} (r : Bool) (h : i < b.tup.length) :
    (b.make_move i r).tup = b.tup.set i (some b.turn) := by
  simp [TicTacToeBoard.make_move, List.set_eq_take_cons_drop _ h]

theorem make_move_getD {b : TicTacToeBoard} {i : Nat} (r : Bool) (h : i < b.tup.length)
    (j : Nat) :
    (b.make_move i r).tup.getD j none =
      if j = i then some b.turn else b.tup.getD j none := by
  rw [make_move_tup r h, List.getD_eq_getElem?_getD, List.getD_eq_getElem?_getD,
    List.getElem?_set]
  by_cases hji : j = i
  · subst hji; simp [h]
  · rw [if_neg (fun hij : i = j => hji hij.symm), if_neg hji]

theorem make_move_length {b : TicTacToeBoard} {i : Nat} (r : Bool) (h : i < b.tup.length) :
    (b.make_move i r).tup.length = b.tup.length := by
  rw [make_move_tup r h, List.length_set]

theorem mem_emptyIndices {b : TicTacToeBoard} {i : Nat} :
    i ∈ b.emptyIndices ↔ i < b.tup.length ∧ b.tup.getD i none = none := by
  simp [TicTacToeBoard.emptyIndices, List.mem_filter, List.mem_range]

theorem mem_find_children {b c : TicTacToeBoard} :
    c ∈ b.find_children ↔
      b.terminal = false ∧ ∃ i ∈ b.emptyIndices, c = b.make_move i false := by
  unfold TicTacToeBoard.find_children
  split
  · next hterm =>
    simp only [Finset.not_mem_empty, false_iff]
    intro hc
    rw [hc.1] at hterm
    exact Bool.false_ne_true hterm
  · next hterm =>
    rw [Bool.not_eq_true] at hterm
    simp only [List.mem_toFinset, List.mem_map, hterm, true_and]
    constructor
    · rintro ⟨i, hi, hc⟩; exact ⟨i, hi, hc.symm⟩
    · rintro ⟨i, hi, hc⟩; exact ⟨i, hi, hc.symm⟩

theorem find_children_of_terminal {b : TicTacToeBoard} (h : b.terminal = true) :
    b.find_children = ∅ := by
  unfold TicTacToeBoard.find_children
  rw [if_pos h]

theorem range_filter_eq_single {i n : Nat} (h : i < n) :
    (List.range n).filter (fun j => decide (j = i)) = [i] := by
  induction n with
  | zero => omega
  | succ n ih =>
    rw [List.range_succ, List.filter_append]
    rcases Nat.lt_succ_iff_lt_or_eq.1 h with h1 | h1
    · have hni : ¬ (n = i) := by omega
      simp [ih h1, hni]
    · subst h1
      have hnil : (List.range i).filter (fun j => decide (j = i)) = [] := by
        rw [List.filter_eq_nil_iff]
        intro a ha
        simp only [List.mem_range] at ha
        simp; omega
      simp [hnil]

theorem diffIndices_make_move {b : TicTacToeBoard} {i : Nat} (r : Bool)
    (h9 : b.tup.length = 9) (hi : i ∈ b.emptyIndices) :
    diffIndices b (b.make_move i r) = [i] := by
  obtain ⟨hlt, he⟩ := mem_emptyIndices.1 hi
  unfold diffIndices
  rw [List.filter_congr (q := fun j => decide (j = i))]
  · exact range_filter_eq_single (by omega)
  · intro j hj
    rw [List.mem_range] at hj
    rw [make_move_getD r hlt j]
    by_cases hji : j = i
    · subst hji
      rw [List.getD_eq_getElem?_getD] at he
      simp [he]
    · simp [hji]

theorem make_move_inj_on {b : TicTacToeBoard} {i j : Nat}
    (hi : i ∈ b.emptyIndices) (hj : j ∈ b.emptyIndices)
    (h : b.make_move i false = b.make_move j false) : i = j := by
  obtain ⟨hilt, hie⟩ := mem_emptyIndices.1 hi
  obtain ⟨hjlt, hje⟩ := mem_emptyIndices.1 hj
  by_contra hne
  have h1 := make_move_getD (b := b) false hilt i
  have h2 := make_move_getD (b := b) false hjlt i
  rw [h] at h1
  rw [h1, if_pos rfl, if_neg hne] at h2
  rw [hie] at h2
  exact Option.noConfusion h2

theorem emptyIndices_nodup (b : TicTacToeBoard) : b.emptyIndices.Nodup :=
  List.Nodup.filter _ (List.nodup_range _)

theorem find_children_card {b : TicTacToeBoard} (h : b.terminal = false) :
    b.find_children.card = b.emptyIndices.length := by
  unfold TicTacToeBoard.find_children
  rw [if_neg (by simp [h]), List.toFinset_card_of_nodup, List.length_map]
  exact List.Nodup.map_on (fun x hx y hy hxy => make_move_inj_on hx hy hxy)
    (emptyIndices_nodup b)

theorem length_filter_range_getD (P : Option Bool → Bool) :
    ∀ l : List (Option Bool),
      ((List.range l.length).filter (fun i => P (l.getD i none))).length =
        (l.filter P).length := by
  intro l
  induction l with
  | nil => rfl
  | cons a t ih =>
    have hstep :
        (List.range (a :: t).length).filter (fun i => P ((a :: t).getD i none)) =
          (List.range (t.length + 1)).filter (fun i => P ((a :: t).getD i none)) := rfl
    rw [hstep, List.range_succ_eq_map, List.filter_cons, List.filter_map]
    have hcomp :
        List.filter ((fun i => P ((a :: t).getD i none)) ∘ Nat.succ) (List.range t.length) =
          List.filter (fun i => P (t.getD i none)) (List.range t.length) :=
      List.filter_congr (fun x _ => rfl)
    rw [hcomp, List.filter_cons]
    cases hPa : P a
    · rw [show P ((a :: t).getD 0 none) = false from hPa]
      simp only [Bool.false_eq_true, if_false]
      rw [List.length_map]
      exact ih
    · rw [show P ((a :: t).getD 0 none) = true from hPa]
      simp only [if_true]
      rw [List.length_cons, List.length_map]
      rw [ih, List.length_cons]

theorem emptyIndices_length (b : TicTacToeBoard) :
    b.emptyIndices.length = countEmpty b.tup := by
  unfold TicTacToeBoard.emptyIndices countEmpty
  exact length_filter_range_getD (fun v => decide (v = none)) b.tup

theorem countEmpty_make_move {b : TicTacToeBoard} {i : Nat} (r : Bool)
    (hi : i ∈ b.emptyIndices) :
    countEmpty (b.make_move i r).tup + 1 = countEmpty b.tup := by
  obtain ⟨hlt, he⟩ := mem_emptyIndices.1 hi
  have hgi : b.tup[i] = none := by
    rw [List.getD_eq_getElem?_getD, List.getElem?_eq_getElem hlt] at he
    exact he
  rw [make_move_tup r hlt, List.set_eq_take_cons_drop _ hlt]
  conv_rhs => rw [← List.take_append_drop i b.tup, List.drop_eq_getElem_cons hlt, hgi]
  simp [countEmpty, List.filter_append]
  omega

theorem countEmpty_eq_zero {l : List (Option Bool)} :
    countEmpty l = 0 ↔ l.any (fun v => v.isNone) = false := by
  rw [countEmpty, List.length_eq_zero, List.filter_eq_nil_iff, List.any_eq_false]
  constructor
  · intro h v hv
    have := h v hv
    simp only [decide_eq_true_eq] at this
    simp [Option.isNone_iff_eq_none, this]
  · intro h v hv
    have := h v hv
    rw [Option.isNone_iff_eq_none] at this
    simp [this]

theorem find_winner_aux_some {tup : List (Option Bool)} :
    ∀ {L : List (Nat × Nat × Nat)} {p : Bool},
      _find_winner_aux tup L = some p → ∃ c ∈ L, lineFilled tup c p := by
  intro L
  induction L with
  | nil => intro p h; simp [_find_winner_aux] at h
  | cons hd tl ih =>
    obtain ⟨i1, i2, i3⟩ := hd
    intro p h
    rw [_find_winner_aux] at h
    split at h
    · next hcond =>
      have hp : p = false := by
        have := Option.some.inj h
        exact this.symm
      subst hp
      exact ⟨(i1, i2, i3), List.mem_cons_self _ _, hcond⟩
    · split at h
      · next hcond =>
        have hp : p = true := by
          have := Option.some.inj h
          exact this.symm
        subst hp
        exact ⟨(i1, i2, i3), List.mem_cons_self _ _, hcond⟩
      · obtain ⟨c, hc, hfill⟩ := ih h
        exact ⟨c, List.mem_cons_of_mem _ hc, hfill⟩

theorem find_winner_aux_none {tup : List (Option Bool)} :
    ∀ {L : List (Nat × Nat × Nat)},
      _find_winner_aux tup L = none → ∀ c ∈ L, ∀ p : Bool, ¬ lineFilled tup c p := by
  intro L
  induction L with
  | nil => intro _ c hc; simp at hc
  | cons hd tl ih =>
    obtain ⟨i1, i2, i3⟩ := hd
    intro h c hc p hfill
    rw [_find_winner_aux] at h
    split at h
    · exact Option.noConfusion h
    · split at h
      · exact Option.noConfusion h
      · next hcf hct =>
        rcases List.mem_cons.1 hc with hc1 | hc2
        · subst hc1
          cases p
          · exact hcf hfill
          · exact hct hfill
        · exact ih h c hc2 p hfill

theorem find_winner_aux_of_mem {tup : List (Option Bool)} :
    ∀ {L : List (Nat × Nat × Nat)} {c : Nat × Nat × Nat} {p : Bool},
      c ∈ L → lineFilled tup c p → (∀ c' ∈ L, ¬ lineFilled tup c' (!p)) →
      _find_winner_aux tup L = some p := by
  intro L
  induction L with
  | nil => intro c p hc; simp at hc
  | cons hd tl ih =>
    obtain ⟨i1, i2, i3⟩ := hd
    intro c p hc hfill hno
    rw [_find_winner_aux]
    split
    · next hcond =>
      cases p
      · rfl
      · exact absurd hcond (hno (i1, i2, i3) (List.mem_cons_self _ _))
    · split
      · next hcf hcond =>
        cases p
        · exact absurd hcond (hno (i1, i2, i3) (List.mem_cons_self _ _))
        · rfl
      · next hcf hct =>
        have hchd : c ≠ (i1, i2, i3) := by
          intro heq
          subst heq
          cases p
          · exact hcf hfill
          · exact hct hfill
        rcases List.mem_cons.1 hc with hc1 | hc2
        · exact absurd hc1 hchd
        · exact ih hc2 hfill (fun c' hc' => hno c' (List.mem_cons_of_mem _ hc'))

theorem make_move_terminal_iff {b : TicTacToeBoard} {i : Nat} {r : Bool} :
    (b.make_move i r).terminal = true ↔
      ((b.make_move i r).winner ≠ none ∨ countEmpty (b.make_move i r).tup = 0) := by
  show ((_find_winner _).isSome || !(List.any _ _)) = true ↔ _
  rw [Bool.or_eq_true, Option.isSome_iff_ne_none, Bool.not_eq_true']
  constructor
  · rintro (hw | hfull)
    · exact Or.inl hw
    · exact Or.inr (countEmpty_eq_zero.2 hfull)
  · rintro (hw | hfull)
    · exact Or.inl hw
    · exact Or.inr (countEmpty_eq_zero.1 hfull)

theorem make_move_winner_terminal {b : TicTacToeBoard} {i : Nat} {r : Bool}
    (h : (b.make_move i r).winner ≠ none) : (b.make_move i r).terminal = true :=
  make_move_terminal_iff.2 (Or.inl h)

theorem make_move_full_terminal {b : TicTacToeBoard} {i : Nat} {r : Bool}
    (h : countEmpty (b.make_move i r).tup = 0) : (b.make_move i r).terminal = true :=
  make_move_terminal_iff.2 (Or.inr h)

theorem reachable_winner_terminal {b : TicTacToeBoard} (hr : Reachable b)
    (hw : b.winner ≠ none) : b.terminal = true := by
  induction hr with
  | root => exact absurd rfl hw
  | step hb hc ih =>
    obtain ⟨-, i, -, hmk⟩ := mem_find_children.1 hc
    subst hmk
    exact make_move_winner_terminal hw

theorem decodeCell_cellCode : ∀ v : Option Bool, decodeCell (cellCode v) = v := by
  decide

theorem decodeTurn_turnCode : ∀ t : Bool, decodeTurn (turnCode t) = t := by
  decide

theorem decodeBoard_roundtrip (b : TicTacToeBoard) :
    decodeBoard (stateCodes b.tup) (turnCode b.turn) =
      ⟨b.tup, b.turn, none, false, false⟩ := by
  unfold decodeBoard stateCodes
  rw [List.map_map, decodeTurn_turnCode]
  congr 1
  rw [show decodeCell ∘ cellCode = id from funext decodeCell_cellCode, List.map_id]

theorem demoBoard_const : ∀ n : Nat, 7 ≤ n → demoBoard n = demoBoard 7 := by
  intro n
  induction n with
  | zero => intro h; omega
  | succ n ih =>
    intro h
    by_cases h7 : n < 7
    · have hn : n = 6 := by omega
      subst hn
      rfl
    · have hstep : demoBoard (n + 1) = demoBoard n := by
        simp only [demoBoard, if_neg h7]
      rw [hstep]
      exact ih (by omega)

theorem demoBoard_step : ∀ n : Nat, (demoBoard n).terminal = false →
    demoBoard (n + 1) ∈ (demoBoard n).find_children := by
  intro n hterm
  by_cases h7 : n < 7
  · interval_cases n <;> exact Finset.mem_coe.1 (by decide)
  · rw [demoBoard_const n (by omega)] at hterm
    have h : (demoBoard 7).terminal = true := by decide
    rw [h] at hterm
    exact Bool.noConfusion hterm

/-- Predicate distinguishing a raised RuntimeError from a returned value. -/
def RewardResult.isError : RewardResult → Bool
  | RewardResult.ok _ => false
  | RewardResult.err _ => true

/-- The full draw board of the spec, X O X / O X O / O X O, but with the turn
field set to X: a terminal BoardState with winner unset on which the claim
about reward demands the value 0. -/
def drawBoardXTurn : TicTacToeBoard :=
  ⟨[some true, some false, some true, some false, some true, some false,
    some false, some true, some false], true, none, true, false⟩

/-- Claim C1 counterexample: drawBoardXTurn is terminal with winner unset and
winner different from the player to move, yet reward returns -1 rather than
the 0 the claim requires for an unset winner. -/
theorem c1_counterexample :
    drawBoardXTurn.terminal = true ∧ drawBoardXTurn.winner = none ∧
    drawBoardXTurn.winner ≠ some drawBoardXTurn.turn ∧
    drawBoardXTurn.reward = RewardResult.ok (-1) ∧
    drawBoardXTurn.reward ≠ RewardResult.ok 0 := by
  decide

/-- Claim C1 (amended): on every terminal BoardState whose winner differs from
the player to move, reward returns -1 when the winner is the other player;
when winner is unset it returns 0 if O is to move and -1 if X is to move; and
it never returns +1. -/
theorem c1_reward_values (b : TicTacToeBoard) (hterm : b.terminal = true)
    (hne : b.winner ≠ some b.turn) :
    (∀ p : Bool, b.winner = some p → b.reward = RewardResult.ok (-1)) ∧
    (b.winner = none → b.turn = false → b.reward = RewardResult.ok 0) ∧
    (b.winner = none → b.turn = true → b.reward = RewardResult.ok (-1)) ∧
    (∀ v : Int, b.reward = RewardResult.ok v → v ≠ 1) := by
  obtain ⟨tup, turn, winner, terminal, rand⟩ := b
  cases terminal
  · exact Bool.noConfusion hterm
  · cases turn <;> rcases winner with _ | p <;> try cases p
    all_goals simp_all [TicTacToeBoard.reward, pyNot]

/-- Claim C1 witness: the values of reward on the draw board with O to move
and on a terminal board X just lost. -/
theorem c1_witness :
    ((⟨[some true, some false, some true, some false, some true, some false,
        some false, some true, some false], false, none, true, false⟩ :
      TicTacToeBoard).reward = RewardResult.ok 0) ∧
    ((⟨[some false, some false, some false, some true, some true, none, none,
        none, none], true, some false, true, false⟩ :
      TicTacToeBoard).reward = RewardResult.ok (-1)) := by
  constructor
  · exact (c1_reward_values _ (by decide) (by decide)).2.1 rfl rfl
  · exact (c1_reward_values _ (by decide) (by decide)).1 false rfl

/-- Claim C2: find_children is empty on a terminal state; on a non-terminal
state it contains exactly one successor per Empty cell, namely make_move at
that cell, and each member differs from the parent at exactly one index. -/
theorem c2_find_children_spec (b : TicTacToeBoard) (h9 : b.tup.length = 9) :
    (b.terminal = true → b.find_children = ∅) ∧
    (b.terminal = false →
      b.find_children.card = countEmpty b.tup ∧
      (∀ i ∈ b.emptyIndices, b.make_move i false ∈ b.find_children) ∧
      (∀ c ∈ b.find_children, ∃ i ∈ b.emptyIndices,
        c = b.make_move i false ∧ diffIndices b c = [i])) := by
  refine ⟨find_children_of_terminal, fun hterm => ⟨?_, ?_, ?_⟩⟩
  · rw [find_children_card hterm, emptyIndices_length]
  · intro i hi
    exact mem_find_children.2 ⟨hterm, i, hi, rfl⟩
  · intro c hc
    obtain ⟨-, i, hi, hmk⟩ := mem_find_children.1 hc
    refine ⟨i, hi, hmk, ?_⟩
    rw [hmk]
    exact diffIndices_make_move false h9 hi

/-- Claim C2 witness: on the root board the number of children equals the
number of Empty cells, and the move at the center is among the children. -/
theorem c2_witness :
    new_tic_tac_toe_board.find_children.card = countEmpty new_tic_tac_toe_board.tup ∧
    new_tic_tac_toe_board.make_move 4 false ∈ new_tic_tac_toe_board.find_children := by
  have h := (c2_find_children_spec new_tic_tac_toe_board (by decide)).2 (by decide)
  exact ⟨h.1, h.2.1 4 (by decide)⟩

/-- Claim C3: reward raises exactly when the board is non-terminal or when the
winner equals the player to move; on every other board it returns a value. -/
theorem c3_reward_raises_iff (b : TicTacToeBoard) :
    b.reward.isError = true ↔ (b.terminal = false ∨ b.winner = some b.turn) := by
  obtain ⟨tup, turn, winner, terminal, rand⟩ := b
  cases terminal <;> cases turn <;> rcases winner with _ | p <;> try cases p
  all_goals simp [TicTacToeBoard.reward, pyNot, RewardResult.isError]

/-- Claim C3 witness: reward raises on the non-terminal root board. -/
theorem c3_witness : new_tic_tac_toe_board.reward.isError = true :=
  (c3_reward_raises_iff new_tic_tac_toe_board).2 (Or.inl rfl)

/-- Claim C4: under the assumption that not both players own a completed
line, _find_winner returns some player exactly when one of the eight combos
is filled with that player mark, and none exactly when no combo is filled. -/
theorem c4_find_winner_iff (tup : List (Option Bool)) (h9 : tup.length = 9)
    (hone : ¬ ((∃ c ∈ _winning_combos, lineFilled tup c true) ∧
               (∃ c ∈ _winning_combos, lineFilled tup c false))) :
    (∀ p : Bool, _find_winner tup = some p ↔ ∃ c ∈ _winning_combos, lineFilled tup c p) ∧
    (_find_winner tup = none ↔ ∀ c ∈ _winning_combos, ∀ p : Bool, ¬ lineFilled tup c p) := by
  constructor
  · intro p
    constructor
    · exact fun h => find_winner_aux_some h
    · rintro ⟨c, hc, hfill⟩
      refine find_winner_aux_of_mem hc hfill ?_
      intro c' hc' hfill'
      apply hone
      cases p
      · exact ⟨⟨c', hc', hfill'⟩, ⟨c, hc, hfill⟩⟩
      · exact ⟨⟨c, hc, hfill⟩, ⟨c', hc', hfill'⟩⟩
  · constructor
    · exact fun h c hc p => find_winner_aux_none h c hc p
    · intro h
      cases hw : _find_winner tup with
      | none => rfl
      | some p =>
        obtain ⟨c, hc, hfill⟩ := find_winner_aux_some hw
        exact absurd hfill (h c hc p)

/-- Claim C4 witness: the board with the top row filled by X and two O marks
has winner X, obtained through the characterisation. -/
theorem c4_witness :
    _find_winner [some true, some true, some true, some false, some false,
      none, none, none, none] = some true := by
  have h := (c4_find_winner_iff [some true, some true, some true, some false,
    some false, none, none, none, none] (by decide) (by decide)).1 true
  exact h.mpr ⟨(0, 1, 2), by decide, by decide⟩

/-- Claim C5: the root state and every state returned by make_move satisfy
terminal = true exactly when winner is set or no Empty cell remains, the
predicate being recomputed at construction. -/
theorem c5_terminal_invariant :
    (new_tic_tac_toe_board.terminal = true ↔
      (new_tic_tac_toe_board.winner ≠ none ∨
        countEmpty new_tic_tac_toe_board.tup = 0)) ∧
    (∀ (b : TicTacToeBoard) (i : Nat) (r : Bool),
      (b.make_move i r).terminal = true ↔
        ((b.make_move i r).winner ≠ none ∨ countEmpty (b.make_move i r).tup = 0)) := by
  constructor
  · decide
  · intro b i r
    exact make_move_terminal_iff

/-- Claim C5 witness: the last move into a draw board is terminal because no
Empty cell remains. -/
theorem c5_witness :
    ((⟨[some true, some false, some true, some false, some true, some false,
        some false, some true, none], false, none, false, false⟩ :
      TicTacToeBoard).make_move 8 false).terminal = true :=
  (c5_terminal_invariant.2
    ⟨[some true, some false, some true, some false, some true, some false,
      some false, some true, none], false, none, false, false⟩ 8 false).mpr
    (Or.inr (by decide))

/-- Claim C6: on every reachable BoardState the winner field is exactly one
of unset, X or O, and a set winner admits no successor through find_children,
so it is never reassigned along any extension. -/
theorem c6_winner_trichotomy_stable (b : TicTacToeBoard) (hr : Reachable b) :
    (b.winner = none ∨ b.winner = some true ∨ b.winner = some false) ∧
    (∀ p : Bool, b.winner = some p → b.find_children = ∅) := by
  constructor
  · rcases b.winner with _ | p
    · exact Or.inl rfl
    · cases p
      · exact Or.inr (Or.inr rfl)
      · exact Or.inr (Or.inl rfl)
  · intro p hp
    apply find_children_of_terminal
    apply reachable_winner_terminal hr
    rw [hp]
    exact fun h => Option.noConfusion h

/-- Claim C6 witness: the reachable board where X completed the 2-4-6
diagonal has a well-formed winner and an empty set of children. -/
theorem c6_witness :
    ((demoBoard 7).winner = none ∨ (demoBoard 7).winner = some true ∨
      (demoBoard 7).winner = some false) ∧
    (demoBoard 7).find_children = ∅ := by
  have h0 : Reachable (demoBoard 0) := Reachable.root
  have h1 : Reachable (demoBoard 1) := Reachable.step h0 (by decide)
  have h2 : Reachable (demoBoard 2) := Reachable.step h1 (by decide)
  have h3 : Reachable (demoBoard 3) := Reachable.step h2 (by decide)
  have h4 : Reachable (demoBoard 4) := Reachable.step h3 (by decide)
  have h5 : Reachable (demoBoard 5) := Reachable.step h4 (by decide)
  have h6 : Reachable (demoBoard 6) := Reachable.step h5 (by decide)
  have h7 : Reachable (demoBoard 7) := Reachable.step h6 (by decide)
  have h := c6_winner_trichotomy_stable (demoBoard 7) h7
  exact ⟨h.1, h.2 true (by decide)⟩

/-- Claim C7: a move at an Empty cell lowers the number of Empty cells by
one, and every find_children sequence started at the root reaches, within at
most nine steps, a terminal state on which find_children is empty. -/
theorem c7_self_play_terminates :
    (∀ (b : TicTacToeBoard) (i : Nat) (r : Bool), i ∈ b.emptyIndices →
        countEmpty (b.make_move i r).tup + 1 = countEmpty b.tup) ∧
    (∀ f : Nat → TicTacToeBoard, f 0 = new_tic_tac_toe_board →
        (∀ n : Nat, (f n).terminal = false → f (n + 1) ∈ (f n).find_children) →
        ∃ n : Nat, n ≤ 9 ∧ (f n).terminal = true ∧ (f n).find_children = ∅) := by
  constructor
  · exact fun b i r hi => countEmpty_make_move r hi
  · intro f h0 hstep
    by_cases hex : ∃ n, n ≤ 9 ∧ (f n).terminal = true
    · obtain ⟨n, hn, ht⟩ := hex
      exact ⟨n, hn, ht, find_children_of_terminal ht⟩
    · exfalso
      push_neg at hex
      have hnt : ∀ n, n ≤ 9 → (f n).terminal = false := by
        intro n hn
        have h := hex n hn
        cases hb : (f n).terminal
        · rfl
        · exact absurd hb h
      have hinv : ∀ k, k ≤ 9 → countEmpty (f k).tup = 9 - k ∧ (f k).tup.length = 9 := by
        intro k
        induction k with
        | zero =>
          intro _
          rw [h0]
          exact ⟨by decide, by decide⟩
        | succ k ih =>
          intro hk9
          have hk : k ≤ 9 := by omega
          have ihk := ih hk
          have hc := hstep k (hnt k hk)
          obtain ⟨-, i, hi, hmk⟩ := mem_find_children.1 hc
          obtain ⟨hilt, -⟩ := mem_emptyIndices.1 hi
          constructor
          · have hd := countEmpty_make_move (b := f k) false hi
            rw [← hmk] at hd
            rw [ihk.1] at hd
            omega
          · rw [hmk, make_move_length false hilt]
            exact ihk.2
      have hc9 := hstep 8 (hnt 8 (by omega))
      obtain ⟨-, i, hi, hmk⟩ := mem_find_children.1 hc9
      have h90 : countEmpty (f 9).tup = 0 := by
        have h := (hinv 9 (le_refl 9)).1
        simpa using h
      have hterm9 : (f 9).terminal = true := by
        rw [hmk] at h90 ⊢
        exact make_move_full_terminal h90
      exact hex 9 (le_refl 9) hterm9

/-- Claim C7 witness: the demo self-play line from the root terminates within
nine steps. -/
theorem c7_witness :
    ∃ n : Nat, n ≤ 9 ∧ (demoBoard n).terminal = true ∧
      (demoBoard n).find_children = ∅ :=
  c7_self_play_terminates.2 demoBoard rfl demoBoard_step

/-- Claim C8: decoding a logged snapshot and mover code back to a BoardState
and applying make_move at the single differing index reproduces the encoding
of the chosen successor. -/
theorem c8_round_trip (b c : TicTacToeBoard) (a : Nat) (h9 : b.tup.length = 9)
    (hchild : isChildOf c b) (ha : diffIndices b c = [a]) :
    stateCodes ((TicTacToeBoard.make_move
        (decodeBoard (stateCodes b.tup) (turnCode b.turn)) a false).tup) =
      stateCodes c.tup := by
  obtain ⟨i, r, hi, hmk⟩ := hchild
  have hdi : diffIndices b c = [i] := by
    rw [hmk]
    exact diffIndices_make_move r h9 hi
  rw [ha] at hdi
  have hai : a = i := List.singleton_injective hdi
  subst hai
  rw [decodeBoard_roundtrip, hmk]
  rfl

/-- Claim C8 witness: the round trip at the root with the move in the center. -/
theorem c8_witness :
    stateCodes ((TicTacToeBoard.make_move
        (decodeBoard (stateCodes new_tic_tac_toe_board.tup)
          (turnCode new_tic_tac_toe_board.turn)) 4 false).tup) =
      stateCodes (new_tic_tac_toe_board.make_move 4 false).tup :=
  c8_round_trip new_tic_tac_toe_board (new_tic_tac_toe_board.make_move 4 false) 4
    (by decide) ⟨4, false, by decide, rfl⟩ (by decide)

/-- Claim C9: a transition is logged exactly when the chosen successor has
the rand flag false; the logged entries are the prior snapshot, the mover
code and the single differing index, appended in lockstep so that equal
lengths are preserved. -/
theorem c9_log_step (d : SelfPlayData) (b c : TicTacToeBoard)
    (h9 : b.tup.length = 9) (hchild : isChildOf c b) :
    (c.rand = true → logStep d b c = d) ∧
    (c.rand = false → ∃ a : Nat, diffIndices b c = [a] ∧
      logStep d b c = ⟨d.State ++ [stateCodes b.tup], d.Turn ++ [turnCode b.turn],
        d.Action ++ [a]⟩) ∧
    ((d.State.length = d.Turn.length ∧ d.Turn.length = d.Action.length) →
      ((logStep d b c).State.length = (logStep d b c).Turn.length ∧
       (logStep d b c).Turn.length = (logStep d b c).Action.length)) := by
  obtain ⟨i, r, hi, hmk⟩ := hchild
  have hdi : diffIndices b c = [i] := by
    rw [hmk]
    exact diffIndices_make_move r h9 hi
  refine ⟨?_, ?_, ?_⟩
  · intro hrand
    unfold logStep
    rw [if_pos hrand]
  · intro hrand
    refine ⟨i, hdi, ?_⟩
    unfold logStep
    rw [if_neg (by rw [hrand]; exact Bool.false_ne_true), hdi]
  · intro hlen
    unfold logStep
    cases hrand : c.rand
    · rw [if_neg Bool.false_ne_true]
      simp [hdi, hlen.1, hlen.2]
    · rw [if_pos rfl]
      exact hlen

/-- Claim C9 witness: logging the center move from the root on an empty
dataset keeps the three sequences of equal length. -/
theorem c9_witness :
    ((logStep ⟨[], [], []⟩ new_tic_tac_toe_board
        (new_tic_tac_toe_board.make_move 4 false)).State.length =
      (logStep ⟨[], [], []⟩ new_tic_tac_toe_board
        (new_tic_tac_toe_board.make_move 4 false)).Turn.length) ∧
    ((logStep ⟨[], [], []⟩ new_tic_tac_toe_board
        (new_tic_tac_toe_board.make_move 4 false)).Turn.length =
      (logStep ⟨[], [], []⟩ new_tic_tac_toe_board
        (new_tic_tac_toe_board.make_move 4 false)).Action.length) :=
  (c9_log_step ⟨[], [], []⟩ new_tic_tac_toe_board
    (new_tic_tac_toe_board.make_move 4 false) (by decide)
    ⟨4, false, by decide, rfl⟩).2.2 ⟨rfl, rfl⟩

/-- Claim C10: make_move is total on indices 0 to 8 whatever the target cell
holds: the indexed cell is overwritten with the mover mark and every other
cell is unchanged in the successor. -/
theorem c10_make_move_frame (b : TicTacToeBoard) (i : Nat) (r : Bool)
    (h9 : b.tup.length = 9) (hi : i < 9) :
    (b.make_move i r).tup.getD i none = some b.turn ∧
    (∀ j : Nat, j ≠ i → (b.make_move i r).tup.getD j none = b.tup.getD j none) := by
  have hlt : i < b.tup.length := by omega
  constructor
  · rw [make_move_getD r hlt i, if_pos rfl]
  · intro j hj
    rw [make_move_getD r hlt j, if_neg hj]

/-- Claim C10 witness: overwriting the already occupied cell 0 raises nothing,
stores the mover mark there and leaves cell 5 unchanged. -/
theorem c10_witness :
    ((⟨[some false, none, none, none, none, none, none, none, none], true,
        none, false, false⟩ : TicTacToeBoard).make_move 0 false).tup.getD 0 none =
      some true ∧
    ((⟨[some false, none, none, none, none, none, none, none, none], true,
        none, false, false⟩ : TicTacToeBoard).make_move 0 false).tup.getD 5 none =
      (⟨[some false, none, none, none, none, none, none, none, none], true,
        none, false, false⟩ : TicTacToeBoard).tup.getD 5 none := by
  have h := c10_make_move_frame
    ⟨[some false, none, none, none, none, none, none, none, none], true,
      none, false, false⟩ 0 false (by decide) (by decide)
  exact ⟨h.1, h.2 5 (by decide)⟩

end TTT
